import Mathlib

/-!
Verification of the MCP tool adapter (DiscoveredMCPTool) of this repository.

The adapter receives loosely typed JavaScript values (MCP content blocks
wrapped in GenAI Part objects), so we embed the code over a small model of
JavaScript values: `JSVal`.  Property access on a non-object yields
`vUndefined` (as in JavaScript, where primitives are boxed and missing
properties read as undefined); property access on null or undefined throws,
which we model with `Except` exactly where the source can actually reach
such an access (the second display summarizer).  Everything else in the
adapter is total, and is embedded as total functions.

The repository contains two variants of the adapter.  Definitions without a
suffix embed `packages/core/src/tools/mcp-tool.ts`; definitions with the
`V2` suffix embed the second variant (the unnamed source file).
-/

/-- Model of a JavaScript value, as far as the adapter inspects them. -/
inductive JSVal where
  | vUndefined : JSVal
  | vNull : JSVal
  | vBool (b : Bool) : JSVal
  | vNum (n : Int) : JSVal
  | vStr (s : String) : JSVal
  | vArr (elems : List JSVal) : JSVal
  | vObj (fields : List (String × JSVal)) : JSVal
deriving Repr

namespace JSVal

/-- JavaScript truthiness. -/
def truthy : JSVal → Bool
  | .vUndefined => false
  | .vNull => false
  | .vBool b => b
  | .vNum n => n != 0
  | .vStr s => !s.isEmpty
  | .vArr _ => true
  | .vObj _ => true

/-- Property read `v[k]`.  On objects this is the first binding of the key;
on every non-object (including null and undefined) it yields undefined.
The sources only read properties of null/undefined where we explicitly model
the throw with `jsGetE`; all other reads are guarded by the type guards. -/
def get : JSVal → String → JSVal
  | .vObj fields, k =>
    match fields.find? (fun p => p.1 == k) with
    | some p => p.2
    | none => .vUndefined
  | _, _ => .vUndefined

/-- The `in` operator: key presence on an object. -/
def hasKey : JSVal → String → Bool
  | .vObj fields, k => fields.any (fun p => p.1 == k)
  | _, _ => false

/-- `typeof v === "object"` (true for objects, arrays and null). -/
def isJsObject : JSVal → Bool
  | .vObj _ => true
  | .vArr _ => true
  | .vNull => true
  | _ => false

/-- `typeof v === "object" && v !== null`. -/
def isNonNullObject : JSVal → Bool
  | .vObj _ => true
  | .vArr _ => true
  | _ => false

/-- `v === null || v === undefined`. -/
def isNullish : JSVal → Bool
  | .vNull => true
  | .vUndefined => true
  | _ => false

/-- `v === undefined`. -/
def isUndef : JSVal → Bool
  | .vUndefined => true
  | _ => false

/-- `typeof v === "string"`. -/
def isStrVal : JSVal → Bool
  | .vStr _ => true
  | _ => false

/-- Strict equality of a value with a string literal (`v === "s"`). -/
def isStrEq (v : JSVal) (s : String) : Bool :=
  match v with
  | .vStr t => t == s
  | _ => false

/-- The string payload of a string value (only used under an `isStrVal`
or `isStrEq` guard in the sources). -/
def strOf : JSVal → String
  | .vStr s => s
  | _ => ""

end JSVal

mutual
/-- JavaScript string coercion `String(v)` as used by template literals. -/
def jsToString : JSVal → String
  | .vUndefined => "undefined"
  | .vNull => "null"
  | .vBool true => "true"
  | .vBool false => "false"
  | .vNum n => toString n
  | .vStr s => s
  | .vArr xs => String.intercalate "," (jsToStringArr xs)
  | .vObj _ => "[object Object]"

/-- Array elements under string coercion (null and undefined render empty). -/
def jsToStringArr : List JSVal → List String
  | [] => []
  | x :: xs =>
    (match x with
     | .vNull => ""
     | .vUndefined => ""
     | y => jsToString y) :: jsToStringArr xs
end

/-- Escape one character for a JSON string literal. -/
def jsonEscapeChar (c : Char) : String :=
  if c = '"' then "\\\"" else if c = '\\' then "\\\\"
  else if c = '\n' then "\\n" else if c = '\r' then "\\r"
  else if c = '\t' then "\\t" else String.mk [c]

/-- Escape a string for a JSON literal (the characters the adapter can
actually produce). -/
def jsonEscape (s : String) : String :=
  String.join (s.toList.map jsonEscapeChar)

def jsonQuote (s : String) : String := "\"" ++ jsonEscape s ++ "\""

mutual
/-- `JSON.stringify(v, null, 2)` at a given indentation prefix.  Undefined
values are dropped from objects and rendered as null inside arrays. -/
def jsonStr (ind : String) : JSVal → String
  | .vUndefined => "null"
  | .vNull => "null"
  | .vBool true => "true"
  | .vBool false => "false"
  | .vNum n => toString n
  | .vStr s => jsonQuote s
  | .vArr [] => "[]"
  | .vArr (x :: xs) =>
    "[\n" ++ String.intercalate ",\n" (jsonStrArr (ind ++ "  ") (x :: xs))
      ++ "\n" ++ ind ++ "]"
  | .vObj fields =>
    match jsonStrObj (ind ++ "  ") fields with
    | [] => "\x7b\x7d"
    | l => "\x7b\n" ++ String.intercalate ",\n" l ++ "\n" ++ ind ++ "\x7d"

def jsonStrArr (ind : String) : List JSVal → List String
  | [] => []
  | x :: xs => (ind ++ jsonStr ind x) :: jsonStrArr ind xs

def jsonStrObj (ind : String) : List (String × JSVal) → List String
  | [] => []
  | (k, v) :: fs =>
    match v with
    | .vUndefined => jsonStrObj ind fs
    | w => (ind ++ jsonQuote k ++ ": " ++ jsonStr ind w) :: jsonStrObj ind fs
end

/-- `JSON.stringify(v, null, 2)`. -/
def jsonStringify (v : JSVal) : String := jsonStr "" v

example : jsonStringify (.vArr []) = "[]" := by
  simp [jsonStringify, jsonStr]
example : jsonStringify (.vArr [.vNum 1, .vStr "a"]) = "[\n  1,\n  \"a\"\n]" := by
  simp [jsonStringify, jsonStr, jsonStrArr, jsonQuote, jsonEscape, jsonEscapeChar]
  decide
example : jsToString (.vStr "x") = "x" := by simp [jsToString]

/-! ## Embedding of `mcp-tool.ts` (primary variant) -/

open JSVal in
/-- The MCP media content types (`MCP_MEDIA_TYPES`). -/
def MCP_MEDIA_TYPES : List String := ["image", "pdf", "audio", "video"]

/-- Type guard `isTextContent` of `DiscoveredMCPTool`. -/
def isTextContent (item : JSVal) : Bool :=
  item.isNonNullObject && item.hasKey "type" && item.hasKey "text"
    && (item.get "type").isStrEq "text" && (item.get "text").isStrVal

/-- Type guard `isResourceContent` of `DiscoveredMCPTool`.  The source reads
`resource.uri` right after a `typeof resource === "object"` check, so a null
resource would throw there; the total `get` models that unreachable-in-claims
corner as a falsy guard. -/
def isResourceContent (item : JSVal) : Bool :=
  item.isNonNullObject && item.hasKey "type" && item.hasKey "resource"
    && (item.get "type").isStrEq "resource"
    && (item.get "resource").isJsObject
    && ((item.get "resource").get "uri").isStrVal

/-- Type guard `isMediaContent` of `DiscoveredMCPTool`. -/
def isMediaContent (item : JSVal) : Bool :=
  item.isNonNullObject
    && (item.hasKey "type" && item.hasKey "data" && item.hasKey "mimeType")
    && (match item.get "type" with
        | .vStr t => MCP_MEDIA_TYPES.contains t
        | _ => false)
    && !(item.get "data").isNullish && !(item.get "mimeType").isNullish

/-- A `{ text: s }` Part. -/
def mkTextPart (s : String) : JSVal := .vObj [("text", .vStr s)]

/-- An `{ inlineData: { data, mimeType } }` Part (field order as in the
source object literals of `transformMcpResponse`). -/
def mkInlinePart (data mimeType : JSVal) : JSVal :=
  .vObj [("inlineData", .vObj [("data", data), ("mimeType", mimeType)])]

def invalidMediaText : String := "[Invalid media: missing data or mimeType]"

/-- Result of processing one content item inside the loop of
`transformMcpResponse`: the Parts pushed onto `currentPartItems`, the
contribution to `currentPartHasMedia`, and the contribution to
`hasTransformedContent`. -/
structure ItemResult where
  parts : List JSVal
  media : Bool
  transformed : Bool
deriving Repr

/-- The per-item body of the content loop of `transformMcpResponse`. -/
def processContentItem (item : JSVal) : ItemResult :=
  if isTextContent item then
    { parts := [.vObj [("text", item.get "text")]], media := false, transformed := true }
  else if isMediaContent item then
    if !(item.get "data").truthy || !(item.get "mimeType").truthy
        || !(item.get "data").isStrVal || !(item.get "mimeType").isStrVal then
      { parts := [mkTextPart invalidMediaText], media := false, transformed := true }
    else
      { parts := [mkInlinePart (item.get "data") (item.get "mimeType")],
        media := true, transformed := true }
  else if isResourceContent item then
    let resource := item.get "resource"
    if (resource.get "blob").truthy && (resource.get "mimeType").truthy then
      { parts := [mkInlinePart (resource.get "blob") (resource.get "mimeType")],
        media := true, transformed := true }
    else if (resource.get "text").truthy then
      { parts := [mkTextPart ("[Resource: " ++ jsToString (resource.get "uri")
                    ++ "]\n" ++ jsToString (resource.get "text"))],
        media := false, transformed := true }
    else
      { parts := [mkTextPart ("[Resource: " ++ jsToString (resource.get "uri") ++ "]")],
        media := false, transformed := true }
  else if item.truthy && item.isNonNullObject && item.hasKey "type" then
    let itemType := item.get "type"
    if (match itemType with
        | .vStr t => MCP_MEDIA_TYPES.contains t
        | _ => false) then
      { parts := [mkTextPart invalidMediaText], media := false, transformed := true }
    else
      { parts := [mkTextPart ("[Unknown content type: " ++ jsToString itemType ++ "]")],
        media := false, transformed := true }
  else
    { parts := [], media := false, transformed := false }

/-- `content.find(item => this.isTextContent(item))?.text || "Unknown error"`. -/
def findErrorText (content : List JSVal) : String :=
  match content.find? isTextContent with
  | some it => if (it.get "text").truthy then (it.get "text").strOf else "Unknown error"
  | none => "Unknown error"

/-- Result of processing one top-level response Part in
`transformMcpResponse`: what is pushed onto `result`, and the contribution
to `hasTransformedContent`. -/
structure PartResult where
  out : List JSVal
  transformed : Bool
deriving Repr

/-- One step of the accumulation over content items: extends
`currentPartItems` and the two flags `currentPartHasMedia` /
`hasTransformedContent`. -/
def contentStep (acc : List JSVal × Bool × Bool) (item : JSVal) :
    List JSVal × Bool × Bool :=
  let r := processContentItem item
  (acc.1 ++ r.parts, acc.2.1 || r.media, acc.2.2 || r.transformed)

/-- The header Part prepended when a response Part contained media. -/
def mkHeaderPart (serverToolName serverName : String) : JSVal :=
  mkTextPart ("[Response from " ++ serverToolName ++ " ("
    ++ serverName ++ " MCP Server)]")

/-- The per-Part body of the outer loop of `transformMcpResponse`. -/
def processPart (serverToolName serverName : String) (part : JSVal) : PartResult :=
  let functionResponse := part.get "functionResponse"
  if !functionResponse.truthy then
    { out := [part], transformed := false }
  else
    match (functionResponse.get "response").get "content" with
    | .vArr content =>
      if ((functionResponse.get "response").get "isError").truthy then
        { out := [mkTextPart ("Error from " ++ serverToolName ++ ": " ++ findErrorText content)],
          transformed := true }
      else
        let step := content.foldl contentStep ([], false, false)
        let items :=
          if step.2.1 && !step.1.isEmpty then
            mkHeaderPart serverToolName serverName :: step.1
          else step.1
        { out := items, transformed := step.2.2 }
    | _ => { out := [part], transformed := false }

/-- One step of the accumulation over top-level response Parts. -/
def partStep (serverToolName serverName : String) (acc : List JSVal × Bool)
    (part : JSVal) : List JSVal × Bool :=
  let r := processPart serverToolName serverName part
  (acc.1 ++ r.out, acc.2 || r.transformed)

/-- `DiscoveredMCPTool.transformMcpResponse` of `mcp-tool.ts`. -/
def transformMcpResponse (serverToolName serverName : String)
    (responseParts : List JSVal) : List JSVal :=
  let folded := responseParts.foldl (partStep serverToolName serverName) ([], false)
  if folded.2 then folded.1 else responseParts

/-- The content-item callback inside `getStringifiedResultForDisplay` of
`mcp-tool.ts` (the `processedContent` map). -/
def processDisplayItem (item : JSVal) : JSVal :=
  if !item.truthy || !item.isNonNullObject then item
  else if (item.get "type").isStrEq "text" && (item.get "text").truthy then
    item.get "text"
  else if (item.get "type").isStrEq "image" && (item.get "data").truthy
      && (item.get "mimeType").truthy then
    .vStr ("[Image: " ++ jsToString (item.get "mimeType") ++ "]")
  else if (item.get "type").isStrEq "audio" && (item.get "data").truthy
      && (item.get "mimeType").truthy then
    .vStr ("[Audio: " ++ jsToString (item.get "mimeType") ++ "]")
  else if (item.get "type").isStrEq "video" && (item.get "data").truthy
      && (item.get "mimeType").truthy then
    .vStr ("[Video: " ++ jsToString (item.get "mimeType") ++ "]")
  else if (item.get "type").isStrEq "pdf" && (item.get "data").truthy
      && (item.get "mimeType").truthy then
    .vStr "[PDF document]"
  else if !(item.get "text").isUndef then item.get "text"
  else item

/-- `processFunctionResponse` inside `getStringifiedResultForDisplay` of
`mcp-tool.ts`.  String results are `vStr`, array results `vArr`. -/
def processFunctionResponseDisp (part : JSVal) : JSVal :=
  let functionResponse := part.get "functionResponse"
  if functionResponse.truthy then
    match (functionResponse.get "response").get "content" with
    | .vArr responseContent =>
      let processed := responseContent.map processDisplayItem
      if processed.all JSVal.isStrVal then
        .vStr (String.intercalate "\n" (processed.map JSVal.strOf))
      else .vArr processed
    | _ => functionResponse
  else part

/-- `getStringifiedResultForDisplay` of `mcp-tool.ts`. -/
def getStringifiedResultForDisplay (result : List JSVal) : String :=
  if result.isEmpty then "```json\n[]\n```"
  else
    let processedResults :=
      match result with
      | [single] => processFunctionResponseDisp single
      | _ => .vArr (result.map processFunctionResponseDisp)
    match processedResults with
    | .vStr s => s
    | v => "```json\n" ++ jsonStringify v ++ "\n```"

/-- `generateValidName` of `mcp-tool.ts`: sanitize to `[a-zA-Z0-9_.-]` and
shorten `slice(0, 28) + "___" + slice(-32)` beyond 63 characters. -/
def isValidNameChar (c : Char) : Bool :=
  (c ≥ 'a' && c ≤ 'z') || (c ≥ 'A' && c ≤ 'Z') || (c ≥ '0' && c ≤ '9')
    || c = '_' || c = '.' || c = '-'

/-- `name.replace(/[^a-zA-Z0-9_.-]/g, "_")`. -/
def sanitizedName (name : String) : List Char :=
  name.toList.map (fun c => if isValidNameChar c then c else '_')

def generateValidName (name : String) : String :=
  let validToolname := sanitizedName name
  if validToolname.length > 63 then
    String.mk (validToolname.take 28 ++ ['_', '_', '_']
      ++ validToolname.drop (validToolname.length - 32))
  else String.mk validToolname

/-! ### Concrete evaluations mirroring the unit tests of `mcp-tool.test.ts` -/

/-- The response envelope Part used throughout: a functionResponse with a
name, a content array, and an isError field (`vUndefined` models absent). -/
def mkEnv (frName : String) (isError : JSVal) (content : List JSVal) : JSVal :=
  .vObj [("functionResponse", .vObj
    [("name", .vStr frName),
     ("response", .vObj [("content", .vArr content), ("isError", isError)])])]

def mkTextBlock (s : String) : JSVal :=
  .vObj [("type", .vStr "text"), ("text", .vStr s)]

def mkImageBlock (data mimeType : JSVal) : JSVal :=
  .vObj [("type", .vStr "image"), ("data", data), ("mimeType", mimeType)]

example :
    transformMcpResponse "t" "s" [mkEnv "t" .vUndefined [mkImageBlock (.vStr "AAA") (.vStr "image/png")]]
      = [mkTextPart "[Response from t (s MCP Server)]",
         mkInlinePart (.vStr "AAA") (.vStr "image/png")] := rfl

example :
    transformMcpResponse "t" "s" [mkEnv "t" (.vBool true) [mkTextBlock "File not found"]]
      = [mkTextPart "Error from t: File not found"] := rfl

example :
    transformMcpResponse "t" "s" [mkEnv "t" .vUndefined []]
      = [mkEnv "t" .vUndefined []] := rfl

example :
    getStringifiedResultForDisplay [mkEnv "t" .vUndefined []] = "" := rfl

example :
    getStringifiedResultForDisplay [] = "```json\n[]\n```" := rfl

/-! ## Embedding of the second adapter variant (the unnamed source file) -/

/-- A single apostrophe, used by the template literals of the second
variant. -/
def sQuote : String := Char.toString (Char.ofNat 39)

/-- The switch of `transformMcpContentToParts` on `actualBlock.type`.
`toolName` is the raw `funcResponse?.name || "unknown tool"` value; template
literals coerce it with `jsToString` at each use. -/
def dispatchV2 (toolName : JSVal) (actualBlock : JSVal) : List JSVal :=
  if (actualBlock.get "type").isStrEq "text" then
    [.vObj [("text", actualBlock.get "text")]]
  else if (actualBlock.get "type").isStrEq "image"
      || (actualBlock.get "type").isStrEq "audio" then
    [mkTextPart ("[Tool " ++ sQuote ++ jsToString toolName ++ sQuote
        ++ " provided the following " ++ jsToString (actualBlock.get "type")
        ++ " data with mime-type: " ++ jsToString (actualBlock.get "mimeType") ++ "]"),
     .vObj [("inlineData", .vObj
        [("mimeType", actualBlock.get "mimeType"), ("data", actualBlock.get "data")])]]
  else if (actualBlock.get "type").isStrEq "resource" then
    let resource := actualBlock.get "resource"
    if (resource.get "text").truthy then
      [.vObj [("text", resource.get "text")]]
    else if (resource.get "blob").truthy then
      let mt := if (resource.get "mimeType").truthy then resource.get "mimeType"
                else .vStr "application/octet-stream"
      [mkTextPart ("[Tool " ++ sQuote ++ jsToString toolName ++ sQuote
          ++ " provided the following embedded resource with mime-type: "
          ++ jsToString mt ++ "]"),
       .vObj [("inlineData", .vObj [("mimeType", mt), ("data", resource.get "blob")])]]
    else []
  else if (actualBlock.get "type").isStrEq "resource_link" then
    let tn := if (actualBlock.get "title").truthy then actualBlock.get "title"
              else actualBlock.get "name"
    [mkTextPart ("Resource Link: " ++ jsToString tn ++ " at "
        ++ jsToString (actualBlock.get "uri"))]
  else []

/-- The per-block callback of `transformMcpContentToParts` of the second
variant.  `JSON.parse` is external, so it is passed as an oracle; a `none`
result models the thrown SyntaxError that the source catches.  Returning
`[]` models the `null` results removed by the final filter. -/
def processBlockV2 (jsonParse : String → Option JSVal) (toolName : JSVal)
    (block : JSVal) : List JSVal :=
  if (block.get "text").truthy && !(block.get "type").truthy then
    match jsonParse (jsToString (block.get "text")) with
    | some actualBlock => dispatchV2 toolName actualBlock
    | none => [.vObj [("text", block.get "text")]]
  else dispatchV2 toolName block

/-- `transformMcpContentToParts` of the second variant. -/
def transformMcpContentToPartsV2 (jsonParse : String → Option JSVal)
    (sdkResponse : List JSVal) : List JSVal :=
  let funcResponse := (sdkResponse.headD .vUndefined).get "functionResponse"
  let mcpContent := (funcResponse.get "response").get "content"
  let toolName := if (funcResponse.get "name").truthy then funcResponse.get "name"
                  else .vStr "unknown tool"
  match mcpContent with
  | .vArr blocks => (blocks.map (processBlockV2 jsonParse toolName)).flatten
  | _ => [mkTextPart "[Error: Could not parse tool response]"]

/-- Property read that models the JavaScript TypeError thrown when reading a
property of null or undefined. -/
def jsGetE (v : JSVal) (k : String) : Except Unit JSVal :=
  match v with
  | .vNull => .error ()
  | .vUndefined => .error ()
  | w => .ok (w.get k)

/-- The pure remainder of the per-block switch of the second variant
summarizer, once `block.type` has been read. -/
def displayBlockBodyV2 (block : JSVal) (ty : JSVal) : JSVal :=
  if ty.isStrEq "text" then block.get "text"
  else if ty.isStrEq "image" then
    .vStr ("[Image: " ++ jsToString (block.get "mimeType") ++ "]")
  else if ty.isStrEq "audio" then
    .vStr ("[Audio: " ++ jsToString (block.get "mimeType") ++ "]")
  else if ty.isStrEq "resource_link" then
    .vStr ("[Link to "
      ++ jsToString (if (block.get "title").truthy then block.get "title"
                     else block.get "name")
      ++ ": " ++ jsToString (block.get "uri") ++ "]")
  else if ty.isStrEq "resource" then
    if ((block.get "resource").get "text").truthy then
      (block.get "resource").get "text"
    else
      .vStr ("[Embedded Resource: "
        ++ (if ((block.get "resource").get "mimeType").truthy then
              jsToString ((block.get "resource").get "mimeType")
            else "unknown type") ++ "]")
  else .vStr ("[Unknown content type: " ++ jsToString ty ++ "]")

/-- One block of the `displayParts` map of the second variant summarizer.
The only property read that can throw is `block.type`. -/
def displayBlockV2 (block : JSVal) : Except Unit JSVal :=
  (jsGetE block "type").map (displayBlockBodyV2 block)

/-- `Array.prototype.join("\n")` with the coercion JavaScript applies to
the collected display parts (null and undefined render as empty). -/
def jsJoinNewline (xs : List JSVal) : String :=
  String.intercalate "\n" (xs.map (fun v =>
    match v with
    | .vNull => ""
    | .vUndefined => ""
    | w => jsToString w))

/-- The raw content extraction shared by the second variant. -/
def mcpContentOfV2 (rawResponse : List JSVal) : JSVal :=
  (((rawResponse.headD .vUndefined).get "functionResponse").get "response").get "content"

/-- `getStringifiedResultForDisplay` of the second variant, with the
possible TypeError modelled in `Except`. -/
def getStringifiedResultForDisplayV2 (rawResponse : List JSVal) : Except Unit String :=
  match mcpContentOfV2 rawResponse with
  | .vArr blocks => do
    let displayParts ← blocks.mapM displayBlockV2
    pure (jsJoinNewline displayParts)
  | _ => pure ("```json\n" ++ jsonStringify (.vArr rawResponse) ++ "\n```")

example :
    getStringifiedResultForDisplayV2 [mkEnv "t" .vUndefined [.vNull]] = .error () := rfl

example :
    getStringifiedResultForDisplayV2 [mkEnv "t" .vUndefined [mkTextBlock "a", mkTextBlock "b"]]
      = .ok "a\nb" := by
  simp [getStringifiedResultForDisplayV2, mcpContentOfV2, displayBlockV2, jsGetE,
    displayBlockBodyV2, mkEnv, mkTextBlock, jsJoinNewline, jsToString, mkTextPart,
    JSVal.get, JSVal.isStrEq, JSVal.truthy, List.mapM.loop, Except.map,
    Bind.bind, Except.bind, Pure.pure, Except.pure]
  decide

/-! ## Embedding of the confirmation gate (`shouldConfirmExecute`) -/

/-- `ToolConfirmationOutcome` as used by the adapter. -/
inductive ToolConfirmationOutcome where
  | proceedOnce
  | proceedAlwaysServer
  | proceedAlwaysTool
  | cancel
deriving Repr, DecidableEq

/-- The result of `shouldConfirmExecute`: `allowed` models the literal
`false` (no confirmation needed); `pendingConfirmation` models the returned
confirmation-details object. -/
inductive ConfirmDecision where
  | allowed
  | pendingConfirmation (serverName toolName : String)
deriving Repr, DecidableEq

/-- `` `${this.serverName}.${this.serverToolName}` ``. -/
def toolAllowListKey (serverName serverToolName : String) : String :=
  serverName ++ "." ++ serverToolName

/-- `DiscoveredMCPTool.shouldConfirmExecute`, with the static allowlist
passed explicitly. -/
def shouldConfirmExecute (allowlist : Finset String)
    (serverName serverToolName : String) (trust : Bool) : ConfirmDecision :=
  if trust then .allowed
  else if serverName ∈ allowlist ∨ toolAllowListKey serverName serverToolName ∈ allowlist then
    .allowed
  else .pendingConfirmation serverName serverToolName

/-- The `onConfirm` callback of the confirmation details: the new allowlist
after resolving with the given outcome. -/
def onConfirm (allowlist : Finset String) (serverName serverToolName : String) :
    ToolConfirmationOutcome → Finset String
  | .proceedAlwaysServer => insert serverName allowlist
  | .proceedAlwaysTool => insert (toolAllowListKey serverName serverToolName) allowlist
  | _ => allowlist

/-- A sequence of later confirmations (server, tool, outcome), folded over
the shared allowlist. -/
def applyConfirmations (confirmations : List (String × String × ToolConfirmationOutcome))
    (allowlist : Finset String) : Finset String :=
  confirmations.foldl (fun al c => onConfirm al c.1 c.2.1 c.2.2) allowlist

/-! ## Shared lemmas -/

theorem sanitizedName_valid (name : String) :
    ∀ c ∈ sanitizedName name, isValidNameChar c = true := by
  intro c hc
  simp only [sanitizedName, List.mem_map] at hc
  obtain ⟨a, _, ha⟩ := hc
  by_cases h : isValidNameChar a = true
  · rw [if_pos h] at ha; rw [← ha]; exact h
  · rw [if_neg h] at ha; rw [← ha]; decide

theorem mem_onConfirm (allowlist : Finset String) (s t a : String)
    (o : ToolConfirmationOutcome) (h : a ∈ allowlist) :
    a ∈ onConfirm allowlist s t o := by
  cases o with
  | proceedAlwaysServer => exact Finset.mem_insert_of_mem h
  | proceedAlwaysTool => exact Finset.mem_insert_of_mem h
  | proceedOnce => exact h
  | cancel => exact h

theorem mem_applyConfirmations
    (rest : List (String × String × ToolConfirmationOutcome))
    (allowlist : Finset String) (a : String) (h : a ∈ allowlist) :
    a ∈ applyConfirmations rest allowlist := by
  induction rest generalizing allowlist with
  | nil => exact h
  | cons c cs ih => exact ih _ (mem_onConfirm _ _ _ _ _ h)

/-! ## Claim theorems -/

/-- Claim C10: for every input string, `generateValidName` returns a string
of length at most 63 whose characters are all in `[a-zA-Z0-9_.-]`, and when
the sanitized name exceeds 63 characters the result is its first 28
characters, then three underscores, then its last 32 characters. -/
theorem c10_generateValidName (name : String) :
    (generateValidName name).length ≤ 63
    ∧ (∀ c ∈ (generateValidName name).toList, isValidNameChar c = true)
    ∧ (63 < (sanitizedName name).length →
        generateValidName name = String.mk ((sanitizedName name).take 28
          ++ ['_', '_', '_']
          ++ (sanitizedName name).drop ((sanitizedName name).length - 32))) := by
  by_cases h : 63 < (sanitizedName name).length
  · have hg : generateValidName name = String.mk ((sanitizedName name).take 28
        ++ ['_', '_', '_']
        ++ (sanitizedName name).drop ((sanitizedName name).length - 32)) := by
      simp [generateValidName, h]
    refine ⟨?_, ?_, fun _ => hg⟩
    · rw [hg]
      show ((sanitizedName name).take 28 ++ ['_', '_', '_']
        ++ (sanitizedName name).drop ((sanitizedName name).length - 32)).length ≤ 63
      simp only [List.length_append, List.length_take, List.length_drop,
        List.length_cons, List.length_nil]
      omega
    · intro c hc
      rw [hg] at hc
      have hc2 : c ∈ (sanitizedName name).take 28 ++ ['_', '_', '_']
          ++ (sanitizedName name).drop ((sanitizedName name).length - 32) := hc
      rcases List.mem_append.mp hc2 with h1 | h1
      · rcases List.mem_append.mp h1 with h2 | h2
        · exact sanitizedName_valid name c (List.mem_of_mem_take h2)
        · simp only [List.mem_cons, List.not_mem_nil, or_false] at h2
          rcases h2 with h3 | h3 | h3 <;> (rw [h3]; decide)
      · exact sanitizedName_valid name c (List.mem_of_mem_drop h1)
  · have hg : generateValidName name = String.mk (sanitizedName name) := by
      simp [generateValidName, h]
    refine ⟨?_, ?_, fun hcontra => absurd hcontra h⟩
    · rw [hg]
      show (sanitizedName name).length ≤ 63
      omega
    · intro c hc
      rw [hg] at hc
      exact sanitizedName_valid name c hc

/-- Claim C10 witness: a concrete 80-character input whose sanitized form
exceeds 63 characters. -/
theorem c10_generateValidName_witness :
    (generateValidName (String.mk (List.replicate 80 'x'))).length ≤ 63
    ∧ generateValidName (String.mk (List.replicate 80 'x'))
        = String.mk ((sanitizedName (String.mk (List.replicate 80 'x'))).take 28
          ++ ['_', '_', '_']
          ++ (sanitizedName (String.mk (List.replicate 80 'x'))).drop
              ((sanitizedName (String.mk (List.replicate 80 'x'))).length - 32)) :=
  ⟨(c10_generateValidName (String.mk (List.replicate 80 'x'))).1,
   (c10_generateValidName (String.mk (List.replicate 80 'x'))).2.2 (by decide)⟩

/-- Claim C2: the confirmation gate returns `allowed` for a trusted tool
regardless of allow-list state; after `ProceedAlwaysServer` for server `s`,
every subsequent decision for any tool under `s` (after any further
confirmations) is `allowed`; `ProceedAlwaysTool` adds the key
`serverId.toolId`; `ProceedOnce` and `Cancel` leave the allow-list
unchanged. -/
theorem c2_allowlist_gate :
    (∀ (allowlist : Finset String) (s t : String),
      shouldConfirmExecute allowlist s t true = .allowed)
    ∧ (∀ (allowlist : Finset String) (s t0 t : String)
        (rest : List (String × String × ToolConfirmationOutcome)) (trust : Bool),
      shouldConfirmExecute
        (applyConfirmations rest (onConfirm allowlist s t0 .proceedAlwaysServer))
        s t trust = .allowed)
    ∧ (∀ (allowlist : Finset String) (s t : String),
      onConfirm allowlist s t .proceedAlwaysTool = insert (s ++ "." ++ t) allowlist)
    ∧ (∀ (allowlist : Finset String) (s t : String),
      onConfirm allowlist s t .proceedOnce = allowlist
        ∧ onConfirm allowlist s t .cancel = allowlist) := by
  refine ⟨fun al s t => rfl, ?_, fun al s t => rfl, fun al s t => ⟨rfl, rfl⟩⟩
  intro al s t0 t rest trust
  have hs : s ∈ applyConfirmations rest (onConfirm al s t0 .proceedAlwaysServer) :=
    mem_applyConfirmations _ _ _ (Finset.mem_insert_self s al)
  cases trust with
  | true => rfl
  | false => simp [shouldConfirmExecute, hs]

/-- Claim C1 counterexample: for a response with an empty content array the
summarizer returns the empty string, not the fenced empty-array JSON
rendering claimed; and when the empty-content response is error-flagged the
transformer emits the error part instead of returning the original. -/
theorem c1_counterexample :
    getStringifiedResultForDisplay [mkEnv "t" .vUndefined []] ≠ "```json\n[]\n```"
    ∧ transformMcpResponse "t" "s" [mkEnv "t" (.vBool true) []]
        ≠ [mkEnv "t" (.vBool true) []] := by
  constructor
  · decide
  · have h1 : transformMcpResponse "t" "s" [mkEnv "t" (.vBool true) []]
        = [mkTextPart "Error from t: Unknown error"] := rfl
    rw [h1]
    simp [mkTextPart, mkEnv]

/-- Claim C1 (amended): for every non-error response whose content array is
empty, the transformer returns the original raw response unchanged (the
fallback decision is taken once for the whole response), and the summarizer
returns the empty string (the fenced empty-array rendering occurs only when
the response Part array itself is empty). -/
theorem c1_whole_response_fallback (frName toolName serverName : String) :
    transformMcpResponse toolName serverName [mkEnv frName .vUndefined []]
        = [mkEnv frName .vUndefined []]
    ∧ getStringifiedResultForDisplay [mkEnv frName .vUndefined []] = ""
    ∧ getStringifiedResultForDisplay [] = "```json\n[]\n```" :=
  ⟨rfl, rfl, rfl⟩

/-- Claim C3 counterexample: when the first text block of an error-flagged
response carries the empty string, the emitted part says `Unknown error`
rather than quoting that (empty) first literal text. -/
theorem c3_counterexample :
    transformMcpResponse "t" "s" [mkEnv "t" (.vBool true) [mkTextBlock ""]]
        = [mkTextPart "Error from t: Unknown error"]
    ∧ transformMcpResponse "t" "s" [mkEnv "t" (.vBool true) [mkTextBlock ""]]
        ≠ [mkTextPart ("Error from t: " ++ "")] := by
  have h1 : transformMcpResponse "t" "s" [mkEnv "t" (.vBool true) [mkTextBlock ""]]
      = [mkTextPart "Error from t: Unknown error"] := rfl
  refine ⟨h1, ?_⟩
  rw [h1]
  simp [mkTextPart]

/-- Claim C3 (amended): an error-flagged response bypasses per-block
processing and emits exactly one part, `Error from <toolId>: <t>`, where
`<t>` is the first literal text found in the content array, or
`Unknown error` when none exists or when that first text is empty.  The
concrete `not found` scenario of the claim holds. -/
theorem c3_error_short_circuit (toolName serverName frName : String)
    (content : List JSVal) :
    transformMcpResponse toolName serverName [mkEnv frName (.vBool true) content]
        = [mkTextPart ("Error from " ++ toolName ++ ": " ++ findErrorText content)]
    ∧ transformMcpResponse "t" "s" [mkEnv "t" (.vBool true) [mkTextBlock "not found"]]
        = [mkTextPart "Error from t: not found"] :=
  ⟨rfl, rfl⟩

theorem processContentItem_textBlock (s : String) :
    processContentItem (mkTextBlock s)
      = { parts := [mkTextPart s], media := false, transformed := true } := rfl

theorem foldl_contentStep_textBlocks (ts : List String) (acc : List JSVal × Bool × Bool) :
    (ts.map mkTextBlock).foldl contentStep acc
      = (acc.1 ++ ts.map mkTextPart, acc.2.1, acc.2.2 || !ts.isEmpty) := by
  induction ts generalizing acc with
  | nil => simp
  | cons s ss ih =>
    simp only [List.map_cons, List.foldl_cons]
    rw [show contentStep acc (mkTextBlock s)
        = (acc.1 ++ [mkTextPart s], acc.2.1 || false, acc.2.2 || true) from rfl]
    rw [ih]
    simp [Bool.or_assoc]

theorem processDisplayItem_textBlock (s : String) :
    processDisplayItem (mkTextBlock s) = .vStr s := by
  by_cases h : s.isEmpty
  · simp [processDisplayItem, mkTextBlock, JSVal.get, JSVal.truthy, JSVal.isStrEq,
      JSVal.isNonNullObject, JSVal.isUndef, h]
  · simp [processDisplayItem, mkTextBlock, JSVal.get, JSVal.truthy, JSVal.isStrEq,
      JSVal.isNonNullObject, JSVal.isUndef, h]

theorem transform_textOnly (toolName serverName frName : String) (ts : List String)
    (h : ts ≠ []) :
    transformMcpResponse toolName serverName
        [mkEnv frName .vUndefined (ts.map mkTextBlock)] = ts.map mkTextPart := by
  have hne : ts.isEmpty = false := by
    cases ts with
    | nil => exact absurd rfl h
    | cons a as => rfl
  have hpart : processPart toolName serverName (mkEnv frName .vUndefined (ts.map mkTextBlock))
      = { out := ts.map mkTextPart, transformed := !ts.isEmpty } := by
    show PartResult.mk
        (if ((ts.map mkTextBlock).foldl contentStep ([], false, false)).2.1
            && !((ts.map mkTextBlock).foldl contentStep ([], false, false)).1.isEmpty then
          mkHeaderPart toolName serverName
            :: ((ts.map mkTextBlock).foldl contentStep ([], false, false)).1
        else ((ts.map mkTextBlock).foldl contentStep ([], false, false)).1)
        ((ts.map mkTextBlock).foldl contentStep ([], false, false)).2.2
      = PartResult.mk (ts.map mkTextPart) (!ts.isEmpty)
    rw [foldl_contentStep_textBlocks]
    simp
  show (if (partStep toolName serverName ([], false)
      (mkEnv frName .vUndefined (ts.map mkTextBlock))).2 then
        (partStep toolName serverName ([], false)
          (mkEnv frName .vUndefined (ts.map mkTextBlock))).1
      else [mkEnv frName .vUndefined (ts.map mkTextBlock)])
    = ts.map mkTextPart
  unfold partStep
  rw [hpart]
  simp [hne]

theorem display_textOnly (frName : String) (ts : List String) :
    getStringifiedResultForDisplay [mkEnv frName .vUndefined (ts.map mkTextBlock)]
      = String.intercalate "\n" ts := by
  have hmap : (ts.map mkTextBlock).map processDisplayItem = ts.map JSVal.vStr := by
    rw [List.map_map]
    exact List.map_congr_left (fun s _ => processDisplayItem_textBlock s)
  have hproc : processFunctionResponseDisp (mkEnv frName .vUndefined (ts.map mkTextBlock))
      = .vStr (String.intercalate "\n" ts) := by
    show (if ((ts.map mkTextBlock).map processDisplayItem).all JSVal.isStrVal then
        JSVal.vStr (String.intercalate "\n"
          (((ts.map mkTextBlock).map processDisplayItem).map JSVal.strOf))
      else .vArr ((ts.map mkTextBlock).map processDisplayItem))
      = .vStr (String.intercalate "\n" ts)
    rw [hmap]
    have hall : (ts.map JSVal.vStr).all JSVal.isStrVal = true := by
      simp [List.all_eq_true, JSVal.isStrVal]
    rw [hall]
    simp [List.map_map]
    congr 1
    exact List.map_id ts
  show (match processFunctionResponseDisp (mkEnv frName .vUndefined (ts.map mkTextBlock)) with
    | .vStr s => s
    | v => "```json\n" ++ jsonStringify v ++ "\n```")
    = String.intercalate "\n" ts
  rw [hproc]

/-- Claim C4 counterexample: the empty content array consists (vacuously) of
text blocks only, yet the transformer does not output the empty list of text
parts — it falls back to the original response; and for an error-flagged
all-text response the output is the error part, not the text parts. -/
theorem c4_counterexample :
    transformMcpResponse "t" "s" [mkEnv "t" .vUndefined (([] : List String).map mkTextBlock)]
        ≠ ([] : List String).map mkTextPart
    ∧ transformMcpResponse "t" "s" [mkEnv "t" (.vBool true) [mkTextBlock "hello"]]
        ≠ [mkTextPart "hello"] := by
  constructor
  · have h1 : transformMcpResponse "t" "s" [mkEnv "t" .vUndefined []]
        = [mkEnv "t" .vUndefined []] := rfl
    simp only [List.map_nil, h1]
    simp
  · have h2 : transformMcpResponse "t" "s" [mkEnv "t" (.vBool true) [mkTextBlock "hello"]]
        = [mkTextPart "Error from t: hello"] := rfl
    rw [h2]
    simp [mkTextPart]

/-- Claim C4 (amended): for every nonempty content array of a non-error
response consisting only of text blocks, the transformer output is exactly
those text strings as text parts in the same order (no header, no extra
parts), and the summarizer output is those strings joined with newline. -/
theorem c4_text_only (toolName serverName frName : String) (ts : List String)
    (h : ts ≠ []) :
    transformMcpResponse toolName serverName
        [mkEnv frName .vUndefined (ts.map mkTextBlock)] = ts.map mkTextPart
    ∧ getStringifiedResultForDisplay [mkEnv frName .vUndefined (ts.map mkTextBlock)]
        = String.intercalate "\n" ts :=
  ⟨transform_textOnly toolName serverName frName ts h, display_textOnly frName ts⟩

/-- Claim C4 witness at the concrete two-element text response. -/
theorem c4_text_only_witness :
    transformMcpResponse "t" "s"
        [mkEnv "t" .vUndefined (["a", "b"].map mkTextBlock)] = ["a", "b"].map mkTextPart
    ∧ getStringifiedResultForDisplay [mkEnv "t" .vUndefined (["a", "b"].map mkTextBlock)]
        = String.intercalate "\n" ["a", "b"] :=
  c4_text_only "t" "s" "t" ["a", "b"] (by simp)

theorem foldl_contentStep_eq (content : List JSVal) (acc : List JSVal × Bool × Bool) :
    content.foldl contentStep acc
      = (acc.1 ++ (content.map (fun i => (processContentItem i).parts)).flatten,
         acc.2.1 || content.any (fun i => (processContentItem i).media),
         acc.2.2 || content.any (fun i => (processContentItem i).transformed)) := by
  induction content generalizing acc with
  | nil => simp
  | cons x xs ih =>
    simp only [List.foldl_cons, List.map_cons, List.flatten_cons, List.any_cons]
    rw [show contentStep acc x
        = (acc.1 ++ (processContentItem x).parts,
           acc.2.1 || (processContentItem x).media,
           acc.2.2 || (processContentItem x).transformed) from rfl]
    rw [ih]
    simp [Bool.or_assoc]

theorem processPart_noErr (toolName serverName frName : String) (content : List JSVal) :
    processPart toolName serverName (mkEnv frName .vUndefined content)
      = { out :=
            if content.any (fun i => (processContentItem i).media)
                && !((content.map (fun i => (processContentItem i).parts)).flatten).isEmpty then
              mkHeaderPart toolName serverName
                :: (content.map (fun i => (processContentItem i).parts)).flatten
            else (content.map (fun i => (processContentItem i).parts)).flatten,
          transformed := content.any (fun i => (processContentItem i).transformed) } := by
  show PartResult.mk
      (if (content.foldl contentStep ([], false, false)).2.1
          && !(content.foldl contentStep ([], false, false)).1.isEmpty then
        mkHeaderPart toolName serverName :: (content.foldl contentStep ([], false, false)).1
      else (content.foldl contentStep ([], false, false)).1)
      (content.foldl contentStep ([], false, false)).2.2
    = _
  rw [foldl_contentStep_eq]
  simp only [Bool.false_or, List.nil_append]

theorem transform_single_env (toolName serverName frName : String) (content : List JSVal)
    (htr : content.any (fun i => (processContentItem i).transformed) = true) :
    transformMcpResponse toolName serverName [mkEnv frName .vUndefined content]
      = (processPart toolName serverName (mkEnv frName .vUndefined content)).out := by
  show (if (partStep toolName serverName ([], false)
        (mkEnv frName .vUndefined content)).2 then
      (partStep toolName serverName ([], false) (mkEnv frName .vUndefined content)).1
    else [mkEnv frName .vUndefined content]) = _
  unfold partStep
  rw [processPart_noErr]
  simp [htr, processPart_noErr]

theorem hasKey_of_get_vStr (fs : List (String × JSVal)) (k : String) (t : String)
    (h : (JSVal.vObj fs).get k = .vStr t) : (JSVal.vObj fs).hasKey k = true := by
  simp only [JSVal.get] at h
  simp only [JSVal.hasKey]
  cases hf : fs.find? (fun p => p.1 == k) with
  | none => rw [hf] at h; exact absurd h (by simp)
  | some q =>
    have h1 : (q.1 == k) = true := by simpa using List.find?_some hf
    exact List.any_eq_true.mpr ⟨q, List.mem_of_find?_eq_some hf, h1⟩

/-- Claim C5: a content block whose type is a media type but whose `data` or
`mimeType` is missing, null, or not a string yields exactly the single
invalid-media placeholder part, and never an inlineData part. -/
theorem c5_invalid_media (toolName serverName frName : String)
    (fs : List (String × JSVal)) (t : String)
    (htype : (JSVal.vObj fs).get "type" = .vStr t)
    (hmedia : MCP_MEDIA_TYPES.contains t = true)
    (hbad : ((JSVal.vObj fs).get "data").isStrVal = false
          ∨ ((JSVal.vObj fs).get "mimeType").isStrVal = false) :
    processContentItem (.vObj fs)
        = { parts := [mkTextPart invalidMediaText], media := false, transformed := true }
    ∧ transformMcpResponse toolName serverName [mkEnv frName .vUndefined [.vObj fs]]
        = [mkTextPart invalidMediaText] := by
  have hkey : (JSVal.vObj fs).hasKey "type" = true := hasKey_of_get_vStr fs "type" t htype
  have hmem : t = "image" ∨ t = "pdf" ∨ t = "audio" ∨ t = "video" := by
    simpa [MCP_MEDIA_TYPES] using hmedia
  have hnottext : (t == "text") = false := by
    rcases hmem with h | h | h | h <;> (subst h; rfl)
  have hnotres : (t == "resource") = false := by
    rcases hmem with h | h | h | h <;> (subst h; rfl)
  have htext : isTextContent (.vObj fs) = false := by
    simp [isTextContent, htype, JSVal.isStrEq, hnottext]
  have hres : isResourceContent (.vObj fs) = false := by
    simp [isResourceContent, htype, JSVal.isStrEq, hnotres]
  have hitem : processContentItem (.vObj fs)
      = { parts := [mkTextPart invalidMediaText], media := false, transformed := true } := by
    by_cases hm : isMediaContent (.vObj fs) = true
    · have hcond : (!((JSVal.vObj fs).get "data").truthy
          || !((JSVal.vObj fs).get "mimeType").truthy
          || !((JSVal.vObj fs).get "data").isStrVal
          || !((JSVal.vObj fs).get "mimeType").isStrVal) = true := by
        rcases hbad with h | h <;> simp [h]
      simp [processContentItem, htext, hm, hcond]
    · simp only [Bool.not_eq_true] at hm
      have hmemP : t ∈ MCP_MEDIA_TYPES := by simpa [MCP_MEDIA_TYPES] using hmem
      simp [processContentItem, htext, hm, hres, JSVal.truthy, JSVal.isNonNullObject,
        hkey, htype, hmedia, hmemP]
  refine ⟨hitem, ?_⟩
  have htr : ([JSVal.vObj fs] : List JSVal).any
      (fun i => (processContentItem i).transformed) = true := by
    simp [hitem]
  rw [transform_single_env toolName serverName frName [.vObj fs] htr,
    processPart_noErr]
  simp [hitem]

/-- Claim C5 witness: the `mimeType: null` image block of the claim. -/
theorem c5_invalid_media_witness :
    processContentItem (.vObj [("type", .vStr "image"), ("data", .vStr "AAA"),
        ("mimeType", .vNull)])
        = { parts := [mkTextPart invalidMediaText], media := false, transformed := true }
    ∧ transformMcpResponse "t" "s" [mkEnv "t" .vUndefined
        [.vObj [("type", .vStr "image"), ("data", .vStr "AAA"), ("mimeType", .vNull)]]]
        = [mkTextPart invalidMediaText] :=
  c5_invalid_media "t" "s" "t"
    [("type", .vStr "image"), ("data", .vStr "AAA"), ("mimeType", .vNull)]
    "image" rfl rfl (Or.inr rfl)

theorem isStrEq_eq (v : JSVal) (s : String) (h : v.isStrEq s = true) : v = .vStr s := by
  cases v <;> simp [JSVal.isStrEq] at h
  subst h; rfl

theorem isTextContent_type (item : JSVal) (h : isTextContent item = true) :
    item.get "type" = .vStr "text" := by
  simp only [isTextContent, Bool.and_eq_true] at h
  exact isStrEq_eq _ _ h.1.2

theorem isResourceContent_type (item : JSVal) (h : isResourceContent item = true) :
    item.get "type" = .vStr "resource" := by
  simp only [isResourceContent, Bool.and_eq_true] at h
  exact isStrEq_eq _ _ h.1.1.2

theorem isMediaContent_type (item : JSVal) (h : isMediaContent item = true) :
    ∃ t, item.get "type" = .vStr t ∧ MCP_MEDIA_TYPES.contains t = true := by
  simp only [isMediaContent, Bool.and_eq_true] at h
  have hmatch := h.1.1.2
  cases hg : item.get "type" <;> rw [hg] at hmatch <;> simp at hmatch
  case vStr t => exact ⟨t, rfl, by simpa [MCP_MEDIA_TYPES] using hmatch⟩

theorem media_type_ne_text (t : String) (h : MCP_MEDIA_TYPES.contains t = true) :
    (t == "text") = false := by
  have hm : t = "image" ∨ t = "pdf" ∨ t = "audio" ∨ t = "video" := by
    simpa [MCP_MEDIA_TYPES] using h
  rcases hm with rfl | rfl | rfl | rfl <;> rfl

theorem media_type_ne_resource (t : String) (h : MCP_MEDIA_TYPES.contains t = true) :
    (t == "resource") = false := by
  have hm : t = "image" ∨ t = "pdf" ∨ t = "audio" ∨ t = "video" := by
    simpa [MCP_MEDIA_TYPES] using h
  rcases hm with rfl | rfl | rfl | rfl <;> rfl

theorem isTextContent_false_of_type (item : JSVal) (t : String)
    (hty : item.get "type" = .vStr t) (hnot : (t == "text") = false) :
    isTextContent item = false := by
  simp [isTextContent, hty, JSVal.isStrEq, hnot]

theorem isResourceContent_false_of_type (item : JSVal) (t : String)
    (hty : item.get "type" = .vStr t) (hnot : (t == "resource") = false) :
    isResourceContent item = false := by
  simp [isResourceContent, hty, JSVal.isStrEq, hnot]

theorem isMediaContent_false_of_type (item : JSVal) (t : String)
    (hty : item.get "type" = .vStr t) (hnot : MCP_MEDIA_TYPES.contains t = false) :
    isMediaContent item = false := by
  have hnotm : t ∉ MCP_MEDIA_TYPES := by simpa [MCP_MEDIA_TYPES] using hnot
  simp [isMediaContent, hty, hnotm]

/-- The items the specification calls media/binary-producing: a valid media
block, or an embedded resource carrying a blob with a mime type.  Exactly
these yield an `inlineData` output part. -/
def producesInlineData (item : JSVal) : Bool :=
  (isMediaContent item
    && !(!(item.get "data").truthy || !(item.get "mimeType").truthy
        || !(item.get "data").isStrVal || !(item.get "mimeType").isStrVal))
  || (isResourceContent item
    && ((item.get "resource").get "blob").truthy
    && ((item.get "resource").get "mimeType").truthy)

theorem processContentItem_media_iff (item : JSVal) :
    (processContentItem item).media = producesInlineData item := by
  by_cases h1 : isTextContent item = true
  · have hty := isTextContent_type item h1
    have hm := isMediaContent_false_of_type item "text" hty (by rfl)
    have hr := isResourceContent_false_of_type item "text" hty (by rfl)
    simp [processContentItem, producesInlineData, h1, hm, hr]
  · by_cases h2 : isMediaContent item = true
    · obtain ⟨t, hty, hcont⟩ := isMediaContent_type item h2
      have hr := isResourceContent_false_of_type item t hty (media_type_ne_resource t hcont)
      by_cases hc : (!(item.get "data").truthy || !(item.get "mimeType").truthy
          || !(item.get "data").isStrVal || !(item.get "mimeType").isStrVal) = true
      · simp [processContentItem, producesInlineData, h1, h2, hc, hr]
      · simp only [Bool.not_eq_true] at hc
        simp [processContentItem, producesInlineData, h1, h2, hc, hr]
    · by_cases h3 : isResourceContent item = true
      · by_cases hb : (((item.get "resource").get "blob").truthy
            && ((item.get "resource").get "mimeType").truthy) = true
        · simp only [Bool.and_eq_true] at hb
          simp [processContentItem, producesInlineData, h1, h2, h3, hb.1, hb.2]
        · simp only [Bool.and_eq_true, not_and] at hb
          by_cases hblob : ((item.get "resource").get "blob").truthy = true
          · have hmime : ((item.get "resource").get "mimeType").truthy = false :=
              Bool.eq_false_iff.mpr (hb hblob)
            by_cases htx : ((item.get "resource").get "text").truthy = true
            · simp [processContentItem, producesInlineData, h1, h2, h3, hblob, hmime, htx]
            · simp [processContentItem, producesInlineData, h1, h2, h3, hblob, hmime, htx]
          · simp only [Bool.not_eq_true] at hblob
            by_cases htx : ((item.get "resource").get "text").truthy = true
            · simp [processContentItem, producesInlineData, h1, h2, h3, hblob, htx]
            · simp [processContentItem, producesInlineData, h1, h2, h3, hblob, htx]
      · simp only [Bool.not_eq_true] at h1 h2 h3
        simp [processContentItem, producesInlineData, h1, h2, h3]
        split
        · split <;> rfl
        · rfl

theorem producesInlineData_parts (item : JSVal) (h : producesInlineData item = true) :
    (processContentItem item).parts ≠ []
      ∧ (processContentItem item).transformed = true := by
  simp only [producesInlineData, Bool.or_eq_true, Bool.and_eq_true] at h
  rcases h with ⟨h2, hval⟩ | ⟨⟨h3, hblob⟩, hmime⟩
  · obtain ⟨t, hty, hcont⟩ := isMediaContent_type item h2
    have h1 := isTextContent_false_of_type item t hty (media_type_ne_text t hcont)
    have hc : (!(item.get "data").truthy || !(item.get "mimeType").truthy
        || !(item.get "data").isStrVal || !(item.get "mimeType").isStrVal) = false := by
      simpa using hval
    simp [processContentItem, h1, h2, hc]
  · have hty := isResourceContent_type item h3
    have h1 := isTextContent_false_of_type item "resource" hty (by rfl)
    have h2 := isMediaContent_false_of_type item "resource" hty (by rfl)
    simp [processContentItem, h1, h2, h3, hblob, hmime]

/-- Claim C6: the image scenario produces exactly the header part followed
by the inlineData part and its display contains `[Image: image/png]`;
a header is inserted before a top-level response Part exactly when that
Part contains a media/binary-producing item, so a sibling all-text Part
gets no header. -/
theorem c6_media_header :
    (transformMcpResponse "t" "s"
        [mkEnv "t" .vUndefined [mkImageBlock (.vStr "AAA") (.vStr "image/png")]]
      = [mkTextPart "[Response from t (s MCP Server)]",
         mkInlinePart (.vStr "AAA") (.vStr "image/png")])
    ∧ (∃ pre post, getStringifiedResultForDisplay
          [mkEnv "t" .vUndefined [mkImageBlock (.vStr "AAA") (.vStr "image/png")]]
        = pre ++ "[Image: image/png]" ++ post)
    ∧ (transformMcpResponse "t" "s"
          [mkEnv "t" .vUndefined [mkTextBlock "First response"],
           mkEnv "t" .vUndefined [mkImageBlock (.vStr "imageData") (.vStr "image/png")]]
        = [mkTextPart "First response",
           mkTextPart "[Response from t (s MCP Server)]",
           mkInlinePart (.vStr "imageData") (.vStr "image/png")])
    ∧ (∀ (toolName serverName frName : String) (content : List JSVal),
        content.any producesInlineData = true →
        transformMcpResponse toolName serverName [mkEnv frName .vUndefined content]
          = mkHeaderPart toolName serverName
              :: (content.map (fun i => (processContentItem i).parts)).flatten)
    ∧ (∀ (toolName serverName frName : String) (content : List JSVal),
        content.any producesInlineData = false →
        content.any (fun i => (processContentItem i).transformed) = true →
        transformMcpResponse toolName serverName [mkEnv frName .vUndefined content]
          = (content.map (fun i => (processContentItem i).parts)).flatten) := by
  refine ⟨rfl, ?_, rfl, ?_, ?_⟩
  · have hone : ∀ x : String, String.intercalate "\n" [x] = x := fun x => rfl
    have hd : getStringifiedResultForDisplay
        [mkEnv "t" .vUndefined [mkImageBlock (.vStr "AAA") (.vStr "image/png")]]
        = "[Image: image/png]" := by
      show (match processFunctionResponseDisp
          (mkEnv "t" .vUndefined [mkImageBlock (.vStr "AAA") (.vStr "image/png")]) with
        | .vStr s => s
        | v => "```json\n" ++ jsonStringify v ++ "\n```") = "[Image: image/png]"
      have hpd : processDisplayItem (mkImageBlock (.vStr "AAA") (.vStr "image/png"))
          = .vStr "[Image: image/png]" := by
        have hA : ("AAA".isEmpty) = false := by decide
        have hM : ("image/png".isEmpty) = false := by decide
        simp [processDisplayItem, mkImageBlock, JSVal.get, JSVal.truthy, JSVal.isStrEq,
          JSVal.isNonNullObject, jsToString, hA, hM]
      show (match (if ([mkImageBlock (.vStr "AAA") (.vStr "image/png")].map
            processDisplayItem).all JSVal.isStrVal then
          JSVal.vStr (String.intercalate "\n"
            (([mkImageBlock (.vStr "AAA") (.vStr "image/png")].map
              processDisplayItem).map JSVal.strOf))
        else .vArr ([mkImageBlock (.vStr "AAA") (.vStr "image/png")].map processDisplayItem)) with
        | .vStr s => s
        | v => "```json\n" ++ jsonStringify v ++ "\n```") = "[Image: image/png]"
      simp [hpd, JSVal.isStrVal, JSVal.strOf, hone]
    exact ⟨"", "", by rw [hd]; decide⟩
  · intro toolName serverName frName content hany
    have hmedia : content.any (fun i => (processContentItem i).media) = true := by
      simpa only [processContentItem_media_iff] using hany
    obtain ⟨i, hi, hp⟩ := List.any_eq_true.mp hany
    have hparts := producesInlineData_parts i hp
    have htr : content.any (fun i => (processContentItem i).transformed) = true :=
      List.any_eq_true.mpr ⟨i, hi, hparts.2⟩
    have hflat : ((content.map (fun i => (processContentItem i).parts)).flatten).isEmpty
        = false := by
      obtain ⟨x, hx⟩ := List.exists_mem_of_ne_nil _ hparts.1
      have hxf : x ∈ (content.map (fun i => (processContentItem i).parts)).flatten :=
        List.mem_flatten.mpr ⟨(processContentItem i).parts, List.mem_map_of_mem _ hi, hx⟩
      cases hl : (content.map (fun i => (processContentItem i).parts)).flatten with
      | nil => rw [hl] at hxf; exact absurd hxf (List.not_mem_nil x)
      | cons a as => rfl
    rw [transform_single_env toolName serverName frName content htr, processPart_noErr]
    simp [hmedia, hflat]
  · intro toolName serverName frName content hany htr
    have hmedia : content.any (fun i => (processContentItem i).media) = false := by
      simpa only [processContentItem_media_iff] using hany
    rw [transform_single_env toolName serverName frName content htr, processPart_noErr]
    simp [hmedia]

/-- Claim C6 witness: the header rule applied at a concrete media content
array and at a concrete all-text content array. -/
theorem c6_media_header_witness :
    transformMcpResponse "t" "s"
        [mkEnv "t" .vUndefined [mkImageBlock (.vStr "AAA") (.vStr "image/png")]]
      = mkHeaderPart "t" "s"
          :: ([mkImageBlock (.vStr "AAA") (.vStr "image/png")].map
              (fun i => (processContentItem i).parts)).flatten
    ∧ transformMcpResponse "t" "s" [mkEnv "t" .vUndefined [mkTextBlock "x"]]
      = ([mkTextBlock "x"].map (fun i => (processContentItem i).parts)).flatten :=
  ⟨c6_media_header.2.2.2.1 "t" "s" "t" [mkImageBlock (.vStr "AAA") (.vStr "image/png")] rfl,
   c6_media_header.2.2.2.2 "t" "s" "t" [mkTextBlock "x"] rfl rfl⟩

/-- A `resource` content block with the given `uri` and raw field values
(`vUndefined` models an absent field). -/
def mkResourceBlock (uri : String) (textV blobV mimeV : JSVal) : JSVal :=
  .vObj [("type", .vStr "resource"),
         ("resource", .vObj [("uri", .vStr uri), ("text", textV),
                             ("blob", blobV), ("mimeType", mimeV)])]

theorem transform_one_item (toolName serverName frName : String) (item : JSVal)
    (r : ItemResult) (hr : processContentItem item = r) (htr : r.transformed = true) :
    transformMcpResponse toolName serverName [mkEnv frName .vUndefined [item]]
      = if r.media && !r.parts.isEmpty then mkHeaderPart toolName serverName :: r.parts
        else r.parts := by
  have hany : [item].any (fun i => (processContentItem i).transformed) = true := by
    simp [hr, htr]
  rw [transform_single_env toolName serverName frName [item] hany, processPart_noErr]
  simp only [List.map_cons, List.map_nil, List.flatten_cons, List.flatten_nil,
    List.any_cons, List.any_nil, hr, Bool.or_false, List.append_nil]

/-- Claim C7 counterexample: on a resource block carrying both `text` and
`blob` (with a mime type), the transformer emits the inlineData part, not
the `[Resource: <uri>]`-prefixed text part the claim says takes priority. -/
theorem c7_counterexample :
    transformMcpResponse "t" "s" [mkEnv "t" .vUndefined
        [mkResourceBlock "file:///r" (.vStr "T") (.vStr "B") (.vStr "m")]]
      = [mkHeaderPart "t" "s", mkInlinePart (.vStr "B") (.vStr "m")]
    ∧ transformMcpResponse "t" "s" [mkEnv "t" .vUndefined
        [mkResourceBlock "file:///r" (.vStr "T") (.vStr "B") (.vStr "m")]]
      ≠ [mkTextPart ("[Resource: file:///r]\nT")]
    ∧ transformMcpResponse "t" "s" [mkEnv "t" .vUndefined
        [mkResourceBlock "u" .vUndefined (.vStr "B") .vUndefined]]
      = [mkTextPart "[Resource: u]"]
    ∧ transformMcpResponse "t" "s" [mkEnv "t" .vUndefined
        [mkResourceBlock "u" .vUndefined (.vStr "B") .vUndefined]]
      ≠ [mkHeaderPart "t" "s",
         mkInlinePart (.vStr "B") (.vStr "application/octet-stream")] := by
  have h1 : transformMcpResponse "t" "s" [mkEnv "t" .vUndefined
      [mkResourceBlock "file:///r" (.vStr "T") (.vStr "B") (.vStr "m")]]
      = [mkHeaderPart "t" "s", mkInlinePart (.vStr "B") (.vStr "m")] := rfl
  have hB : (("B" : String).isEmpty) = false := by decide
  have hitem : processContentItem (mkResourceBlock "u" .vUndefined (.vStr "B") .vUndefined)
      = { parts := [mkTextPart "[Resource: u]"], media := false, transformed := true } := by
    simp [processContentItem, mkResourceBlock, isTextContent, isMediaContent,
      isResourceContent, JSVal.get, JSVal.truthy, JSVal.isStrEq, JSVal.isStrVal,
      JSVal.isNonNullObject, JSVal.isJsObject, JSVal.hasKey, jsToString,
      MCP_MEDIA_TYPES, hB, mkTextPart]
  have h2 : transformMcpResponse "t" "s" [mkEnv "t" .vUndefined
      [mkResourceBlock "u" .vUndefined (.vStr "B") .vUndefined]]
      = [mkTextPart "[Resource: u]"] := by
    rw [transform_one_item "t" "s" "t" _ _ hitem rfl]
    simp
  refine ⟨h1, ?_, h2, ?_⟩
  · rw [h1]
    simp [mkHeaderPart, mkTextPart, mkInlinePart]
  · rw [h2]
    simp [mkHeaderPart, mkTextPart, mkInlinePart]

/-- Claim C7 (amended): for a resource block, if `resource.blob` and
`resource.mimeType` are both present (truthy), the transformer emits the
single `inlineData` part (and the part-level response header precedes it);
otherwise, if `resource.text` is present, it emits
`[Resource: <uri>]\n<text>`; otherwise it emits `[Resource: <uri>]`.
Blob + mime type takes priority over text, and a blob without a mime type
is not defaulted to `application/octet-stream` — it falls through to the
text / URI-only cases. -/
theorem c7_resource_blocks (toolName serverName frName u : String) (tv bv mv : JSVal) :
    ((bv.truthy && mv.truthy) = true →
      processContentItem (mkResourceBlock u tv bv mv)
          = { parts := [mkInlinePart bv mv], media := true, transformed := true }
        ∧ transformMcpResponse toolName serverName
            [mkEnv frName .vUndefined [mkResourceBlock u tv bv mv]]
          = [mkHeaderPart toolName serverName, mkInlinePart bv mv])
    ∧ ((bv.truthy && mv.truthy) = false → tv.truthy = true →
      processContentItem (mkResourceBlock u tv bv mv)
          = { parts := [mkTextPart ("[Resource: " ++ u ++ "]\n" ++ jsToString tv)],
              media := false, transformed := true }
        ∧ transformMcpResponse toolName serverName
            [mkEnv frName .vUndefined [mkResourceBlock u tv bv mv]]
          = [mkTextPart ("[Resource: " ++ u ++ "]\n" ++ jsToString tv)])
    ∧ ((bv.truthy && mv.truthy) = false → tv.truthy = false →
      processContentItem (mkResourceBlock u tv bv mv)
          = { parts := [mkTextPart ("[Resource: " ++ u ++ "]")],
              media := false, transformed := true }
        ∧ transformMcpResponse toolName serverName
            [mkEnv frName .vUndefined [mkResourceBlock u tv bv mv]]
          = [mkTextPart ("[Resource: " ++ u ++ "]")]) := by
  have htext : isTextContent (mkResourceBlock u tv bv mv) = false := rfl
  have hmedia : isMediaContent (mkResourceBlock u tv bv mv) = false := rfl
  have hres : isResourceContent (mkResourceBlock u tv bv mv) = true := rfl
  have hblob : (((mkResourceBlock u tv bv mv).get "resource").get "blob") = bv := rfl
  have hmime : (((mkResourceBlock u tv bv mv).get "resource").get "mimeType") = mv := rfl
  have htv : (((mkResourceBlock u tv bv mv).get "resource").get "text") = tv := rfl
  have huri : (((mkResourceBlock u tv bv mv).get "resource").get "uri") = .vStr u := rfl
  refine ⟨?_, ?_, ?_⟩
  · intro hb
    have hitem : processContentItem (mkResourceBlock u tv bv mv)
        = { parts := [mkInlinePart bv mv], media := true, transformed := true } := by
      simp only [Bool.and_eq_true] at hb
      simp [processContentItem, htext, hmedia, hres, hblob, hmime, hb.1, hb.2, mkInlinePart]
    refine ⟨hitem, ?_⟩
    rw [transform_one_item toolName serverName frName _ _ hitem rfl]
    simp
  · intro hb ht
    have hitem : processContentItem (mkResourceBlock u tv bv mv)
        = { parts := [mkTextPart ("[Resource: " ++ u ++ "]\n" ++ jsToString tv)],
            media := false, transformed := true } := by
      simp [processContentItem, htext, hmedia, hres, hblob, hmime, htv, huri, hb, ht,
        jsToString]
    refine ⟨hitem, ?_⟩
    rw [transform_one_item toolName serverName frName _ _ hitem rfl]
    simp
  · intro hb ht
    have hitem : processContentItem (mkResourceBlock u tv bv mv)
        = { parts := [mkTextPart ("[Resource: " ++ u ++ "]")],
            media := false, transformed := true } := by
      simp [processContentItem, htext, hmedia, hres, hblob, hmime, htv, huri, hb, ht,
        jsToString]
    refine ⟨hitem, ?_⟩
    rw [transform_one_item toolName serverName frName _ _ hitem rfl]
    simp

/-- Claim C7 witness: the three resource cases at concrete field values. -/
theorem c7_resource_blocks_witness :
    transformMcpResponse "t" "s" [mkEnv "t" .vUndefined
        [mkResourceBlock "u" (.vStr "T") (.vStr "B") (.vStr "m")]]
      = [mkHeaderPart "t" "s", mkInlinePart (.vStr "B") (.vStr "m")]
    ∧ transformMcpResponse "t" "s" [mkEnv "t" .vUndefined
        [mkResourceBlock "u" (.vStr "T") (.vStr "B") .vUndefined]]
      = [mkTextPart ("[Resource: " ++ "u" ++ "]\n" ++ jsToString (.vStr "T"))]
    ∧ transformMcpResponse "t" "s" [mkEnv "t" .vUndefined
        [mkResourceBlock "u" .vUndefined .vUndefined .vUndefined]]
      = [mkTextPart ("[Resource: " ++ "u" ++ "]")] :=
  ⟨((c7_resource_blocks "t" "s" "t" "u" (.vStr "T") (.vStr "B") (.vStr "m")).1
      (by decide)).2,
   ((c7_resource_blocks "t" "s" "t" "u" (.vStr "T") (.vStr "B") .vUndefined).2.1
      (by decide) (by decide)).2,
   ((c7_resource_blocks "t" "s" "t" "u" .vUndefined .vUndefined .vUndefined).2.2
      (by decide) (by decide)).2⟩

/-- A concrete model of `JSON.parse` at the two strings exercised below:
the JSON text `\x7b"text": "hi"\x7d` parses to an object with only a `text`
field, while the bare word `hi` is not valid JSON, so `JSON.parse` throws
(modelled as `none`). -/
def jsonParse0 : String → Option JSVal := fun s =>
  if s = "\x7b\"text\": \"hi\"\x7d" then some (.vObj [("text", .vStr "hi")]) else none

/-- Claim C8 counterexample: an untyped block whose text parses to a block
that is itself untyped text is dropped entirely, whereas the same parsed
block received directly is emitted as a literal text part — so a
successfully parsed block is not processed as if it had been received
directly. -/
theorem c8_counterexample :
    processBlockV2 jsonParse0 (.vStr "t")
        (.vObj [("text", .vStr "\x7b\"text\": \"hi\"\x7d")]) = []
    ∧ processBlockV2 jsonParse0 (.vStr "t") (.vObj [("text", .vStr "hi")])
        = [.vObj [("text", .vStr "hi")]]
    ∧ transformMcpContentToPartsV2 jsonParse0
        [mkEnv "t" .vUndefined [.vObj [("text", .vStr "\x7b\"text\": \"hi\"\x7d")]]] = []
    ∧ ([] : List JSVal) ≠ [JSVal.vObj [("text", .vStr "hi")]]
    ∧ processBlockV2 jsonParse0 (.vStr "t") (.vObj [("text", .vStr "")]) = []
    ∧ ([] : List JSVal) ≠ [JSVal.vObj [("text", .vStr "")]] := by
  have h1 : (("hi" : String).isEmpty) = false := by decide
  have h2 : (("\x7b\"text\": \"hi\"\x7d" : String).isEmpty) = false := by decide
  refine ⟨?_, ?_, ?_, by simp, ?_, by simp⟩
  · simp [processBlockV2, dispatchV2, jsonParse0, jsToString, JSVal.get, JSVal.truthy,
      JSVal.isStrEq, h1, h2]
  · simp [processBlockV2, dispatchV2, jsonParse0, jsToString, JSVal.get, JSVal.truthy,
      JSVal.isStrEq, h1, h2]
  · simp [transformMcpContentToPartsV2, processBlockV2, dispatchV2, jsonParse0,
      jsToString, mkEnv, JSVal.get, JSVal.truthy, JSVal.isStrEq, h1, h2]
  · have h3 : (("" : String).isEmpty) = true := by decide
    simp [processBlockV2, dispatchV2, jsonParse0, jsToString, JSVal.get, JSVal.truthy,
      JSVal.isStrEq, h3]

/-- Claim C8 (amended): for a block with no (truthy) type discriminator and
a non-empty text string, the second-variant transformer attempts to parse
the string as JSON; on failure it emits the raw string as a literal text
part; on success it dispatches the parsed block through the per-type switch
— one level only, without re-applying the legacy parsing step — which
coincides with processing the parsed block directly whenever that block is
not itself an untyped text block. -/
theorem c8_legacy_parse (jsonParse : String → Option JSVal) (toolName : JSVal)
    (t : String) (ht : t ≠ "") :
    (jsonParse t = none →
      processBlockV2 jsonParse toolName (.vObj [("text", .vStr t)])
        = [.vObj [("text", .vStr t)]])
    ∧ (∀ b, jsonParse t = some b →
      processBlockV2 jsonParse toolName (.vObj [("text", .vStr t)])
        = dispatchV2 toolName b)
    ∧ (∀ b, jsonParse t = some b →
      ((b.get "text").truthy = false ∨ (b.get "type").truthy = true) →
      processBlockV2 jsonParse toolName (.vObj [("text", .vStr t)])
        = processBlockV2 jsonParse toolName b)
    ∧ (jsonParse t = none →
      transformMcpContentToPartsV2 jsonParse
          [mkEnv "fr" .vUndefined [.vObj [("text", .vStr t)]]]
        = [.vObj [("text", .vStr t)]]) := by
  have hemp : t.isEmpty = false := by
    rcases Bool.eq_false_or_eq_true t.isEmpty with h | h
    · exact absurd ((String.isEmpty_iff t).mp h) ht
    · exact h
  have hdisp : ∀ b, jsonParse t = some b →
      processBlockV2 jsonParse toolName (.vObj [("text", .vStr t)])
        = dispatchV2 toolName b := by
    intro b hb
    simp [processBlockV2, JSVal.get, JSVal.truthy, hemp, jsToString, hb]
  refine ⟨?_, hdisp, ?_, ?_⟩
  · intro hn
    simp [processBlockV2, JSVal.get, JSVal.truthy, hemp, jsToString, hn]
  · intro b hb hside
    rw [hdisp b hb]
    have hcond : ((b.get "text").truthy && !(b.get "type").truthy) = false := by
      rcases hside with h | h <;> simp [h]
    simp [processBlockV2, hcond]
  · intro hn
    have hfail : ∀ tn, processBlockV2 jsonParse tn (.vObj [("text", .vStr t)])
        = [.vObj [("text", .vStr t)]] := by
      intro tn
      simp [processBlockV2, JSVal.get, JSVal.truthy, hemp, jsToString, hn]
    simp [transformMcpContentToPartsV2, mkEnv, JSVal.get, JSVal.truthy, hfail]

/-- Claim C8 witness: both parse outcomes at concrete inputs. -/
theorem c8_legacy_parse_witness :
    processBlockV2 jsonParse0 (.vStr "t") (.vObj [("text", .vStr "hi")])
        = [.vObj [("text", .vStr "hi")]]
    ∧ processBlockV2 jsonParse0 (.vStr "t")
        (.vObj [("text", .vStr "\x7b\"text\": \"hi\"\x7d")])
        = dispatchV2 (.vStr "t") (.vObj [("text", .vStr "hi")]) :=
  ⟨(c8_legacy_parse jsonParse0 (.vStr "t") "hi" (by decide)).1 rfl,
   (c8_legacy_parse jsonParse0 (.vStr "t") "\x7b\"text\": \"hi\"\x7d"
      (by decide)).2.1 (.vObj [("text", .vStr "hi")]) rfl⟩

theorem mapM_displayBlockV2_ok (bs : List JSVal) (h : ∀ b ∈ bs, b.isNullish = false) :
    ∃ l, bs.mapM displayBlockV2 = Except.ok l := by
  induction bs with
  | nil => exact ⟨[], rfl⟩
  | cons b bsi ih =>
    obtain ⟨l, hl⟩ := ih (fun x hx => h x (List.mem_cons_of_mem _ hx))
    have hb := h b (List.mem_cons_self b bsi)
    have hone : ∃ v, displayBlockV2 b = Except.ok v := by
      cases b with
      | vNull => simp [JSVal.isNullish] at hb
      | vUndefined => simp [JSVal.isNullish] at hb
      | vBool x => exact ⟨_, rfl⟩
      | vNum x => exact ⟨_, rfl⟩
      | vStr x => exact ⟨_, rfl⟩
      | vArr x => exact ⟨_, rfl⟩
      | vObj x => exact ⟨_, rfl⟩
    obtain ⟨v, hv⟩ := hone
    refine ⟨v :: l, ?_⟩
    rw [List.mapM_cons, hv, hl]
    rfl

/-- Claim C9 counterexample: a response whose content array contains a null
entry makes the second-variant summarizer throw (reading `block.type` of
null), so the summarizer is not total. -/
theorem c9_counterexample :
    getStringifiedResultForDisplayV2 [mkEnv "t" .vUndefined [.vNull]] = .error ()
    ∧ getStringifiedResultForDisplayV2 [mkEnv "t" .vUndefined [.vUndefined]]
      = .error () := ⟨rfl, rfl⟩

/-- Claim C9 (amended): when the response cannot be parsed into the expected
block-array shape, the summarizer returns the fenced pretty-printed JSON
rendering of the raw response; and it returns a string (never throws) for
every response whose content array contains no null/undefined entries.  A
null entry in the content array, however, makes it throw. -/
theorem c9_summarizer_total (rawResponse : List JSVal) :
    ((∀ bs, mcpContentOfV2 rawResponse ≠ .vArr bs) →
      getStringifiedResultForDisplayV2 rawResponse
        = .ok ("```json\n" ++ jsonStringify (.vArr rawResponse) ++ "\n```"))
    ∧ (∀ bs, mcpContentOfV2 rawResponse = .vArr bs →
        (∀ b ∈ bs, b.isNullish = false) →
        ∃ s, getStringifiedResultForDisplayV2 rawResponse = .ok s) := by
  constructor
  · intro h
    unfold getStringifiedResultForDisplayV2
    cases hm : mcpContentOfV2 rawResponse with
    | vArr bs => exact absurd hm (h bs)
    | vUndefined => rfl
    | vNull => rfl
    | vBool b => rfl
    | vNum n => rfl
    | vStr s => rfl
    | vObj fields => rfl
  · intro bs hm hnn
    obtain ⟨l, hl⟩ := mapM_displayBlockV2_ok bs hnn
    refine ⟨jsJoinNewline l, ?_⟩
    unfold getStringifiedResultForDisplayV2
    rw [hm]
    simp only [hl]
    rfl

/-- Claim C9 witness: the fenced fallback at the empty Part array, and a
successful run on a text-block content array. -/
theorem c9_summarizer_total_witness :
    getStringifiedResultForDisplayV2 []
      = .ok ("```json\n" ++ jsonStringify (.vArr []) ++ "\n```")
    ∧ ∃ s, getStringifiedResultForDisplayV2 [mkEnv "t" .vUndefined [mkTextBlock "a"]]
      = .ok s :=
  ⟨(c9_summarizer_total []).1 (fun bs => by simp [mcpContentOfV2, JSVal.get]),
   (c9_summarizer_total [mkEnv "t" .vUndefined [mkTextBlock "a"]]).2
     [mkTextBlock "a"]
     rfl
     (by intro b hb; simp [mkTextBlock] at hb; subst hb; rfl)⟩
